import Mathlib

/-!
Verification of the terminal keyboard input decoder (`keyboard.go`).

The decoder works on byte buffers; bytes are modelled as `Nat` (values < 256
in practice, but nothing below depends on that bound).  The escape-sequence
table is a list of literal byte strings (`keys []string` in the source); the
functional key mapped to entry `i` is `0xFFFF - i`, as in the source.
-/

/-- Modelled from the spec: the `keyEvent` struct is declared outside the
given source file; the spec's Data Model says a KeyEvent carries exactly one
of a functional key code, a decoded Unicode scalar, or an error.  The source
file uses the fields `key`, `rune` and `err` (zero value: all absent). -/
structure keyEvent where
  key : Nat
  rune : Nat
  err : Option Nat
deriving DecidableEq

/-- Modelled from the spec: `KeyEsc` is declared outside the given source
file; it is the functional key code for the Escape key (the escape byte). -/
def KeyEsc : Nat := 0x1B

/-- Modelled from the spec: `KeySpace` is declared outside the given source
file; the spec calls it "the Space key code" (ASCII space). -/
def KeySpace : Nat := 0x20

/-- Modelled from the spec: `KeyBackspace2` is declared outside the given
source file; the spec calls it "the secondary Backspace code" (ASCII DEL). -/
def KeyBackspace2 : Nat := 0x7F

/-- `isPfx p b` is Go's `strings.HasPrefix(string(b), string(p))` on byte
strings: `p` is a prefix of `b`. -/
def isPfx : List Nat → List Nat → Bool
  | [], _ => true
  | _ :: _, [] => false
  | a :: as, b :: bs => a == b && isPfx as bs

/-- Loop of `parse_escape_sequence`: scan `keys` from index `i` upward,
returning `(len(key), keyEvent{key: 0xFFFF - i})` for the first entry that is
a prefix of `buf`, and `(0, zero value)` if none is. -/
def parse_escape_loop (buf : List Nat) (i : Nat) : List (List Nat) → Nat × keyEvent
  | [] => (0, ⟨0, 0, none⟩)
  | key :: rest =>
    if isPfx key buf then (key.length, ⟨0xFFFF - i, 0, none⟩)
    else parse_escape_loop buf (i + 1) rest

/-- `parse_escape_sequence` from the source: first-in-table-order prefix
match over the escape-sequence table. -/
def parse_escape_sequence (keys : List (List Nat)) (buf : List Nat) : Nat × keyEvent :=
  parse_escape_loop buf 0 keys

/-- Lower bound of the accepted second-byte range of Go's
`unicode/utf8.DecodeRune` (the `acceptRanges` table, selected by the first
byte). -/
def utf8AcceptLo (b0 : Nat) : Nat :=
  if b0 = 0xE0 then 0xA0 else if b0 = 0xF0 then 0x90 else 0x80

/-- Upper bound of the accepted second-byte range of Go's
`unicode/utf8.DecodeRune`. -/
def utf8AcceptHi (b0 : Nat) : Nat :=
  if b0 = 0xED then 0x9F else if b0 = 0xF4 then 0x8F else 0xBF

/-- Embedding of Go's `unicode/utf8.DecodeRune`: returns `(rune, size)`.
`RuneError = 0xFFFD` with size 0 on an empty input, size 1 on an invalid or
incomplete encoding; otherwise the decoded scalar and its byte length.
Overlong encodings, surrogates, and first bytes 0x80..0xC1 and 0xF5..0xFF
are rejected as invalid. -/
def decodeRune : List Nat → Nat × Nat
  | [] => (0xFFFD, 0)
  | b0 :: rest =>
    if b0 < 0x80 then (b0, 1)
    else if b0 < 0xC2 then (0xFFFD, 1)
    else if b0 < 0xE0 then
      match rest with
      | b1 :: _ =>
        if 0x80 ≤ b1 ∧ b1 ≤ 0xBF then ((b0 % 0x20) * 0x40 + b1 % 0x40, 2)
        else (0xFFFD, 1)
      | [] => (0xFFFD, 1)
    else if b0 < 0xF0 then
      match rest with
      | b1 :: b2 :: _ =>
        if (utf8AcceptLo b0 ≤ b1 ∧ b1 ≤ utf8AcceptHi b0) ∧ (0x80 ≤ b2 ∧ b2 ≤ 0xBF) then
          ((b0 % 0x10) * 0x1000 + (b1 % 0x40) * 0x40 + b2 % 0x40, 3)
        else (0xFFFD, 1)
      | _ => (0xFFFD, 1)
    else if b0 < 0xF5 then
      match rest with
      | b1 :: b2 :: b3 :: _ =>
        if (utf8AcceptLo b0 ≤ b1 ∧ b1 ≤ utf8AcceptHi b0) ∧ (0x80 ≤ b2 ∧ b2 ≤ 0xBF) ∧
            (0x80 ≤ b3 ∧ b3 ≤ 0xBF) then
          ((b0 % 0x8) * 0x40000 + (b1 % 0x40) * 0x1000 + (b2 % 0x40) * 0x40 + b3 % 0x40, 4)
        else (0xFFFD, 1)
      | _ => (0xFFFD, 1)
    else (0xFFFD, 1)

/-- `extract_event` from the source: the Event Decoder.  Empty buffer: no
event.  Escape byte at the head: table match, else lone Esc swallowing the
whole buffer.  Single-byte functional keys.  Otherwise one UTF-8 scalar,
rejected when `DecodeRune` yields `RuneError`. -/
def extract_event (keys : List (List Nat)) (inbuf : List Nat) : Nat × keyEvent :=
  match inbuf with
  | [] => (0, ⟨0, 0, none⟩)
  | b0 :: _ =>
    if b0 = 0x1B then
      if (parse_escape_sequence keys inbuf).1 = 0 then (inbuf.length, ⟨KeyEsc, 0, none⟩)
      else parse_escape_sequence keys inbuf
    else if b0 ≤ KeySpace ∨ b0 = KeyBackspace2 then
      (1, ⟨b0, 0, none⟩)
    else if (decodeRune inbuf).1 = 0xFFFD then (0, ⟨0, 0, none⟩)
    else ((decodeRune inbuf).2, ⟨0, (decodeRune inbuf).1, none⟩)

/-- Spec-side definition: the standard UTF-8 encoding of a scalar value,
written from the spec's "standard variable-length text encoding rules". -/
def encodeUtf8 (r : Nat) : List Nat :=
  if r < 0x80 then [r]
  else if r < 0x800 then [0xC0 + r / 0x40, 0x80 + r % 0x40]
  else if r < 0x10000 then
    [0xE0 + r / 0x1000, 0x80 + (r / 0x40) % 0x40, 0x80 + r % 0x40]
  else
    [0xF0 + r / 0x40000, 0x80 + (r / 0x1000) % 0x40, 0x80 + (r / 0x40) % 0x40, 0x80 + r % 0x40]

/-- Spec-side definition: Unicode scalar values (code points that are not
surrogates). -/
def ValidScalar (r : Nat) : Prop :=
  r < 0x110000 ∧ ¬(0xD800 ≤ r ∧ r < 0xE000)

instance (r : Nat) : Decidable (ValidScalar r) := by
  unfold ValidScalar
  infer_instance

theorem encodeUtf8_ne_nil (r : Nat) : encodeUtf8 r ≠ [] := by
  unfold encodeUtf8
  split_ifs <;> simp

set_option maxHeartbeats 2000000 in
theorem decodeRune_encode (r : Nat) (rest : List Nat) (h : ValidScalar r) :
    decodeRune (encodeUtf8 r ++ rest) = (r, (encodeUtf8 r).length) := by
  obtain ⟨hlt, hsur⟩ := h
  unfold encodeUtf8
  split_ifs with h1 h2 h3
  all_goals
    simp only [List.cons_append, List.nil_append, decodeRune, utf8AcceptLo, utf8AcceptHi,
      List.length_cons, List.length_nil]
  all_goals
    split_ifs <;> (rw [Prod.mk.injEq]; constructor <;> omega)

theorem encodeUtf8_one (b0 : Nat) (h : b0 < 0x80) : encodeUtf8 b0 = [b0] := by
  unfold encodeUtf8
  rw [if_pos h]

theorem encodeUtf8_two (b0 b1 : Nat) (h0 : 0xC2 ≤ b0) (h0' : b0 < 0xE0)
    (h1 : 0x80 ≤ b1 ∧ b1 ≤ 0xBF) :
    encodeUtf8 (b0 % 0x20 * 0x40 + b1 % 0x40) = [b0, b1] ∧
      ValidScalar (b0 % 0x20 * 0x40 + b1 % 0x40) := by
  refine ⟨?_, by constructor <;> omega⟩
  unfold encodeUtf8
  rw [if_neg (by omega), if_pos (by omega)]
  simp only [List.cons.injEq, and_true]
  omega

theorem encodeUtf8_three (b0 b1 b2 : Nat) (h0 : 0xE0 ≤ b0) (h0' : b0 < 0xF0)
    (h1 : utf8AcceptLo b0 ≤ b1 ∧ b1 ≤ utf8AcceptHi b0) (h2 : 0x80 ≤ b2 ∧ b2 ≤ 0xBF) :
    encodeUtf8 (b0 % 0x10 * 0x1000 + b1 % 0x40 * 0x40 + b2 % 0x40) = [b0, b1, b2] ∧
      ValidScalar (b0 % 0x10 * 0x1000 + b1 % 0x40 * 0x40 + b2 % 0x40) := by
  simp only [utf8AcceptLo, utf8AcceptHi] at h1
  split_ifs at h1 <;>
  · refine ⟨?_, by constructor <;> omega⟩
    unfold encodeUtf8
    rw [if_neg (by omega), if_neg (by omega), if_pos (by omega)]
    simp only [List.cons.injEq, and_true]
    refine ⟨by omega, by omega, by omega⟩

theorem encodeUtf8_four (b0 b1 b2 b3 : Nat) (h0 : 0xF0 ≤ b0) (h0' : b0 < 0xF5)
    (h1 : utf8AcceptLo b0 ≤ b1 ∧ b1 ≤ utf8AcceptHi b0) (h2 : 0x80 ≤ b2 ∧ b2 ≤ 0xBF)
    (h3 : 0x80 ≤ b3 ∧ b3 ≤ 0xBF) :
    encodeUtf8 (b0 % 0x8 * 0x40000 + b1 % 0x40 * 0x1000 + b2 % 0x40 * 0x40 + b3 % 0x40) =
        [b0, b1, b2, b3] ∧
      ValidScalar (b0 % 0x8 * 0x40000 + b1 % 0x40 * 0x1000 + b2 % 0x40 * 0x40 + b3 % 0x40) := by
  simp only [utf8AcceptLo, utf8AcceptHi] at h1
  split_ifs at h1 <;>
  · refine ⟨?_, by constructor <;> omega⟩
    unfold encodeUtf8
    rw [if_neg (by omega), if_neg (by omega), if_neg (by omega)]
    simp only [List.cons.injEq, and_true]
    refine ⟨by omega, by omega, by omega, by omega⟩

set_option maxHeartbeats 2000000 in
theorem decodeRune_valid (b : List Nat) (r n : Nat)
    (hd : decodeRune b = (r, n)) (hne : r ≠ 0xFFFD) :
    ValidScalar r ∧ n = (encodeUtf8 r).length ∧ ∃ rest, b = encodeUtf8 r ++ rest := by
  match b with
  | [] =>
    injection hd with hr hn
    exact absurd hr.symm hne
  | b0 :: t =>
    match t with
    | [] =>
      simp only [decodeRune] at hd
      split_ifs at hd <;> injection hd with hr hn <;> subst hr <;> subst hn <;>
        first
          | (exact absurd rfl hne)
          | (have he := encodeUtf8_one b0 (by omega)
             exact ⟨by constructor <;> omega, by rw [he]; rfl, [], by rw [he]; rfl⟩)
    | b1 :: t1 =>
      match t1 with
      | [] =>
        simp only [decodeRune] at hd
        split_ifs at hd <;> injection hd with hr hn <;> subst hr <;> subst hn <;>
          first
            | (exact absurd rfl hne)
            | (have he := encodeUtf8_one b0 (by omega)
               exact ⟨by constructor <;> omega, by rw [he]; rfl, [b1], by rw [he]; rfl⟩)
            | (have he := encodeUtf8_two b0 b1 (by omega) (by omega) (by omega)
               exact ⟨he.2, by rw [he.1]; rfl, [], by rw [he.1]; rfl⟩)
      | b2 :: t2 =>
        match t2 with
        | [] =>
          simp only [decodeRune] at hd
          split_ifs at hd <;> injection hd with hr hn <;> subst hr <;> subst hn <;>
            first
              | (exact absurd rfl hne)
              | (have he := encodeUtf8_one b0 (by omega)
                 exact ⟨by constructor <;> omega, by rw [he]; rfl, [b1, b2], by rw [he]; rfl⟩)
              | (have he := encodeUtf8_two b0 b1 (by omega) (by omega) (by omega)
                 exact ⟨he.2, by rw [he.1]; rfl, [b2], by rw [he.1]; rfl⟩)
              | (have he := encodeUtf8_three b0 b1 b2 (by omega) (by omega) (by omega) (by omega)
                 exact ⟨he.2, by rw [he.1]; rfl, [], by rw [he.1]; rfl⟩)
        | b3 :: t3 =>
          simp only [decodeRune] at hd
          split_ifs at hd <;> injection hd with hr hn <;> subst hr <;> subst hn <;>
            first
              | (exact absurd rfl hne)
              | (have he := encodeUtf8_one b0 (by omega)
                 exact ⟨by constructor <;> omega, by rw [he]; rfl, b1 :: b2 :: b3 :: t3,
                   by rw [he]; rfl⟩)
              | (have he := encodeUtf8_two b0 b1 (by omega) (by omega) (by omega)
                 exact ⟨he.2, by rw [he.1]; rfl, b2 :: b3 :: t3, by rw [he.1]; rfl⟩)
              | (have he := encodeUtf8_three b0 b1 b2 (by omega) (by omega) (by omega) (by omega)
                 exact ⟨he.2, by rw [he.1]; rfl, b3 :: t3, by rw [he.1]; rfl⟩)
              | (have he := encodeUtf8_four b0 b1 b2 b3 (by omega) (by omega) (by omega)
                    (by omega) (by omega)
                 exact ⟨he.2, by rw [he.1]; rfl, t3, by rw [he.1]; rfl⟩)

theorem isPfx_length (p b : List Nat) (h : isPfx p b = true) : p.length ≤ b.length := by
  induction p generalizing b with
  | nil => simp
  | cons a as ih =>
    match b with
    | [] => simp [isPfx] at h
    | x :: xs =>
      simp only [isPfx, Bool.and_eq_true, beq_iff_eq] at h
      simpa using ih xs h.2

theorem parse_escape_loop_no_match (b : List Nat) (keys : List (List Nat)) (i : Nat)
    (h : ∀ k ∈ keys, isPfx k b = false) :
    parse_escape_loop b i keys = (0, ⟨0, 0, none⟩) := by
  induction keys generalizing i with
  | nil => rfl
  | cons k rest ih =>
    rw [parse_escape_loop, if_neg]
    · exact ih (i + 1) fun k' hk' => h k' (List.mem_cons_of_mem k hk')
    · simp [h k (List.mem_cons_self k rest)]

theorem parse_escape_loop_first_match (b : List Nat) (pre : List (List Nat)) (k : List Nat)
    (post : List (List Nat)) (i : Nat)
    (hpre : ∀ k' ∈ pre, isPfx k' b = false) (hk : isPfx k b = true) :
    parse_escape_loop b i (pre ++ k :: post) =
      (k.length, ⟨0xFFFF - (i + pre.length), 0, none⟩) := by
  induction pre generalizing i with
  | nil => simp [parse_escape_loop, hk]
  | cons p ps ih =>
    rw [List.cons_append, parse_escape_loop, if_neg]
    · rw [ih (i + 1) fun k' hk' => hpre k' (List.mem_cons_of_mem p hk')]
      simp only [List.length_cons, Prod.mk.injEq, keyEvent.mk.injEq, and_true, true_and]
      omega
    · simp [hpre p (List.mem_cons_self p ps)]

theorem parse_escape_loop_fst_le (b : List Nat) (keys : List (List Nat)) (i : Nat) :
    (parse_escape_loop b i keys).1 ≤ b.length := by
  induction keys generalizing i with
  | nil => simp [parse_escape_loop]
  | cons k rest ih =>
    rw [parse_escape_loop]
    split_ifs with h
    · exact isPfx_length k b h
    · exact ih (i + 1)

theorem decodeRune_size_le (b : List Nat) : (decodeRune b).2 ≤ b.length := by
  match b with
  | [] => simp [decodeRune]
  | [b0] =>
    simp only [decodeRune]
    split_ifs <;> simp
  | [b0, b1] =>
    simp only [decodeRune]
    split_ifs <;> simp
  | [b0, b1, b2] =>
    simp only [decodeRune]
    split_ifs <;> simp
  | b0 :: b1 :: b2 :: b3 :: t =>
    simp only [decodeRune]
    split_ifs <;> simp

theorem extract_event_esc_of_no_match (keys : List (List Nat)) (b t : List Nat)
    (hb : b = 0x1B :: t) (h : ∀ k ∈ keys, isPfx k b = false) :
    extract_event keys b = (b.length, ⟨KeyEsc, 0, none⟩) := by
  subst hb
  rw [extract_event, if_pos rfl, if_pos]
  rw [parse_escape_sequence, parse_escape_loop_no_match _ _ _ h]

/-- Helper for the decoder's escape branch: when some entry of the table is a
prefix of the buffer, the result is determined by the first such entry. -/
theorem extract_event_match (keys : List (List Nat)) (b t : List Nat)
    (pre : List (List Nat)) (k : List Nat) (post : List (List Nat))
    (hb : b = 0x1B :: t) (hkeys : keys = pre ++ k :: post)
    (hpre : ∀ k' ∈ pre, isPfx k' b = false) (hk : isPfx k b = true) (hne : k ≠ []) :
    extract_event keys b = (k.length, ⟨0xFFFF - pre.length, 0, none⟩) := by
  subst hb hkeys
  have hp := parse_escape_loop_first_match (0x1B :: t) pre k post 0 hpre hk
  rw [extract_event, if_pos rfl, parse_escape_sequence, hp, if_neg]
  · simp
  · simp only [Nat.zero_add]
    exact fun h => hne (List.length_eq_zero.mp h)

/-- C5 (confirmed): for every buffer starting with 0x1B, decode scans the
Escape-Sequence Table in table order and returns the first entry whose
literal bytes are a prefix of the buffer, with consumed = that literal's
length and event = that entry's mapped functional key (`0xFFFF - index`);
in particular the match is decided by first-in-table-order even when one
entry's literal is a prefix of another's, in either placement order.  (Table
entries are escape-sequence literals, hence non-empty.) -/
theorem extract_event_first_in_table_order (keys : List (List Nat)) (b t : List Nat)
    (pre : List (List Nat)) (k : List Nat) (post : List (List Nat))
    (hb : b = 0x1B :: t) (hkeys : keys = pre ++ k :: post)
    (hpre : ∀ k' ∈ pre, isPfx k' b = false) (hk : isPfx k b = true) (hne : k ≠ []) :
    extract_event keys b = (k.length, ⟨0xFFFF - pre.length, 0, none⟩) :=
  extract_event_match keys b t pre k post hb hkeys hpre hk hne

/-- C5 witness: with two entries where one is a prefix of the other, placed
in both orders, the first entry in table order wins; and a first matching
entry after a non-matching one gets the key mapped to its index. -/
theorem extract_event_first_in_table_order_witness :
    extract_event [[0x1B, 0x4F], [0x1B, 0x4F, 0x50]] [0x1B, 0x4F, 0x50] =
        (2, ⟨0xFFFF, 0, none⟩) ∧
      extract_event [[0x1B, 0x4F, 0x50], [0x1B, 0x4F]] [0x1B, 0x4F, 0x50] =
        (3, ⟨0xFFFF, 0, none⟩) ∧
      extract_event [[0x1B, 0x58], [0x1B, 0x4F]] [0x1B, 0x4F, 0x50] =
        (2, ⟨0xFFFE, 0, none⟩) := by
  refine ⟨?_, ?_, ?_⟩
  · exact extract_event_first_in_table_order _ _ [0x4F, 0x50] [] [0x1B, 0x4F]
      [[0x1B, 0x4F, 0x50]] rfl rfl (by decide) (by decide) (by decide)
  · exact extract_event_first_in_table_order _ _ [0x4F, 0x50] [] [0x1B, 0x4F, 0x50]
      [[0x1B, 0x4F]] rfl rfl (by decide) (by decide) (by decide)
  · exact extract_event_first_in_table_order _ _ [0x4F, 0x50] [[0x1B, 0x58]] [0x1B, 0x4F]
      [] rfl rfl (by decide) (by decide) (by decide)

/-- C6 (confirmed): for every buffer starting with 0x1B such that no table
entry's full literal is a prefix of the buffer, decode returns consumed =
the entire buffer's length and event = Esc. -/
theorem extract_event_unmatched_esc (keys : List (List Nat)) (b t : List Nat)
    (hb : b = 0x1B :: t) (h : ∀ k ∈ keys, isPfx k b = false) :
    extract_event keys b = (b.length, ⟨KeyEsc, 0, none⟩) :=
  extract_event_esc_of_no_match keys b t hb h

/-- C6 witness: input 0x1B 'Z' with no matching entry yields a single Esc
event with 2 bytes consumed. -/
theorem extract_event_unmatched_esc_witness :
    extract_event [[0x1B, 0x4F, 0x50]] [0x1B, 0x5A] = (2, ⟨KeyEsc, 0, none⟩) :=
  extract_event_unmatched_esc [[0x1B, 0x4F, 0x50]] [0x1B, 0x5A] [0x5A] rfl (by decide)

/-- C1 counterexample: with table entry "\x1bOP" (0x1B 0x4F 0x50), the buffer
0x1B 0x4F is a proper prefix of that entry's literal and has no entry's full
literal as a prefix, yet decode does NOT return consumed = 0 / no event: it
consumes the whole buffer as a lone Esc. -/
theorem extract_event_partial_prefix_no_wait :
    (extract_event [[0x1B, 0x4F, 0x50]] [0x1B, 0x4F]).1 ≠ 0 ∧
      extract_event [[0x1B, 0x4F, 0x50]] [0x1B, 0x4F] = (2, ⟨KeyEsc, 0, none⟩) := by
  decide

/-- C1 (amended): for every buffer whose first byte is 0x1B that is a proper
prefix of some Escape-Sequence Table entry's literal but does not have any
entry's full literal as a prefix of it, decode returns consumed = the entire
buffer's length and event = Esc — it does not wait for more bytes, so
feeding a multi-byte escape sequence one byte at a time does not reproduce
the single event obtained by feeding it all at once. -/
theorem extract_event_partial_prefix_amended (keys : List (List Nat)) (b t : List Nat)
    (hb : b = 0x1B :: t)
    (_hprop : ∃ k ∈ keys, isPfx b k = true ∧ b ≠ k)
    (h : ∀ k ∈ keys, isPfx k b = false) :
    extract_event keys b = (b.length, ⟨KeyEsc, 0, none⟩) :=
  extract_event_esc_of_no_match keys b t hb h

/-- C1 witness: the amended behaviour at the concrete partial prefix. -/
theorem extract_event_partial_prefix_amended_witness :
    extract_event [[0x1B, 0x4F, 0x50]] [0x1B, 0x4F] = (2, ⟨KeyEsc, 0, none⟩) :=
  extract_event_partial_prefix_amended [[0x1B, 0x4F, 0x50]] [0x1B, 0x4F] [0x4F] rfl
    ⟨[0x1B, 0x4F, 0x50], by decide, by decide, by decide⟩ (by decide)

/-- C10 (confirmed): for every non-empty buffer whose first byte is 0x1B,
`extract_event` returns consumed ≥ 1 — the decoder never asks the caller to
wait for more bytes once an escape byte is at the buffer's head. -/
theorem extract_event_escape_progress (keys : List (List Nat)) (b t : List Nat)
    (hb : b = 0x1B :: t) : 1 ≤ (extract_event keys b).1 := by
  subst hb
  rw [extract_event, if_pos rfl]
  split_ifs with h
  · simp
  · omega

/-- C10 witness: a lone escape byte is consumed at once. -/
theorem extract_event_escape_progress_witness :
    1 ≤ (extract_event [] [0x1B]).1 :=
  extract_event_escape_progress [] [0x1B] [] rfl

/-- C9 (confirmed): for every buffer contents and every table, decode returns
a consumed count satisfying consumed ≤ len(buffer). -/
theorem extract_event_consumed_le (keys : List (List Nat)) (b : List Nat) :
    (extract_event keys b).1 ≤ b.length := by
  match b with
  | [] => simp [extract_event]
  | b0 :: t =>
    rw [extract_event]
    split_ifs with h1 h2 h3 h4
    · simp
    · exact parse_escape_loop_fst_le (b0 :: t) keys 0
    · simp
    · simp
    · exact decodeRune_size_le (b0 :: t)

theorem encodeUtf8_len_one (r b : Nat) (h : encodeUtf8 r = [b]) : r = b ∧ b < 0x80 := by
  unfold encodeUtf8 at h
  split_ifs at h <;> simp_all

/-- C4 counterexample: the buffer 0xEF 0xBF 0xBD is the complete valid UTF-8
encoding of the scalar U+FFFD, its first byte is not 0x1B, is greater than
the Space key code and is not the secondary Backspace code, yet decode
returns consumed = 0 and no event instead of (3, U+FFFD): the source tests
`r != utf8.RuneError`, which also rejects a genuinely typed U+FFFD. -/
theorem extract_event_ufffd_rejected :
    encodeUtf8 0xFFFD = [0xEF, 0xBF, 0xBD] ∧ ValidScalar 0xFFFD ∧
      extract_event [] [0xEF, 0xBF, 0xBD] = (0, ⟨0, 0, none⟩) := by
  decide

/-- C4 (amended): for every buffer whose first byte is not 0x1B, greater than
the Space key code and not the secondary Backspace code: if the buffer's head
is a complete valid UTF-8 encoding of a Unicode scalar value OTHER THAN
U+FFFD, decode returns consumed = that encoding's byte length and an event
carrying that scalar; if the head is the encoding of U+FFFD itself, or a
valid-but-incomplete or invalid encoding, decode returns consumed = 0 and no
event. -/
theorem extract_event_utf8_amended :
    (∀ (keys : List (List Nat)) (r : Nat) (rest : List Nat),
      ValidScalar r → r ≠ 0xFFFD →
      (encodeUtf8 r ++ rest).headD 0 ≠ 0x1B →
      KeySpace < (encodeUtf8 r ++ rest).headD 0 →
      (encodeUtf8 r ++ rest).headD 0 ≠ KeyBackspace2 →
      extract_event keys (encodeUtf8 r ++ rest) = ((encodeUtf8 r).length, ⟨0, r, none⟩)) ∧
    (∀ (keys : List (List Nat)) (b0 : Nat) (t : List Nat),
      b0 ≠ 0x1B → KeySpace < b0 → b0 ≠ KeyBackspace2 →
      (¬∃ r rest, ValidScalar r ∧ r ≠ 0xFFFD ∧ b0 :: t = encodeUtf8 r ++ rest) →
      extract_event keys (b0 :: t) = (0, ⟨0, 0, none⟩)) := by
  constructor
  · intro keys r rest hv hne h1 h2 h3
    have hd := decodeRune_encode r rest hv
    rcases he : encodeUtf8 r with _ | ⟨e0, es⟩
    · exact absurd he (encodeUtf8_ne_nil r)
    rw [he] at hd h1 h2 h3
    simp only [List.cons_append, List.headD_cons] at hd h1 h2 h3 ⊢
    rw [extract_event, if_neg h1, if_neg (by omega), hd]
    simp [hne]
  · intro keys b0 t h1 h2 h3 hnex
    rw [extract_event, if_neg h1, if_neg (by omega)]
    by_cases hr : (decodeRune (b0 :: t)).1 = 0xFFFD
    · rw [if_pos hr]
    · exfalso
      obtain ⟨hv, _, rest, hb⟩ :=
        decodeRune_valid (b0 :: t) (decodeRune (b0 :: t)).1 (decodeRune (b0 :: t)).2 rfl hr
      exact hnex ⟨(decodeRune (b0 :: t)).1, rest, hv, hr, hb⟩

/-- C4 witness: the amended theorem applied to the complete valid scalar
0x61 ('a') followed by one more byte, and to the incomplete two-byte prefix
0xC3. -/
theorem extract_event_utf8_amended_witness :
    extract_event [] (encodeUtf8 0x61 ++ [0x62]) = ((encodeUtf8 0x61).length, ⟨0, 0x61, none⟩) ∧
      extract_event [] [0xC3] = (0, ⟨0, 0, none⟩) := by
  constructor
  · exact extract_event_utf8_amended.1 [] 0x61 [0x62] (by decide) (by decide) (by decide)
      (by decide) (by decide)
  · refine extract_event_utf8_amended.2 [] 0xC3 [] (by decide) (by decide) (by decide) ?_
    rintro ⟨r, rest, _, _, heq⟩
    rcases he : encodeUtf8 r with _ | ⟨e0, es⟩
    · exact absurd he (encodeUtf8_ne_nil r)
    rw [he] at heq
    simp only [List.cons_append, List.cons.injEq] at heq
    obtain ⟨he0, hni⟩ := heq
    have hes : es = [] := by
      rcases es with _ | ⟨x, xs⟩
      · rfl
      · simp at hni
    have := encodeUtf8_len_one r 0xC3 (by rw [he, hes, he0])
    omega

/-- The `input_event` struct from the source: one Raw Chunk — data bytes plus
an optional terminal error (error codes modelled as `Nat`). -/
structure input_event where
  data : List Nat
  err : Option Nat
deriving DecidableEq

/-- One decode attempt of `inputEventsProducer`: run `extract_event` on the
buffer once; on `size ≠ 0` remove the consumed prefix and emit the event. -/
def producer_extract (keys : List (List Nat)) (buf : List Nat) : List keyEvent × List Nat :=
  if (extract_event keys buf).1 = 0 then ([], buf)
  else ([(extract_event keys buf).2], buf.drop (extract_event keys buf).1)

/-- Receive loop of `inputEventsProducer` over a script of arriving chunks
(cancellation not fired): an error chunk emits a `keyEvent` carrying the
error and stops; a data chunk is appended to the buffer followed by a single
decode attempt.  Returns the emitted events and the final buffer. -/
def producer_loop (keys : List (List Nat)) : List Nat → List input_event → List keyEvent × List Nat
  | buf, [] => ([], buf)
  | buf, c :: cs =>
    match c.err with
    | some e => ([⟨0, 0, some e⟩], buf)
    | none =>
      match producer_extract keys (buf ++ c.data) with
      | (evs, buf') =>
        match producer_loop keys buf' cs with
        | (tl, bufF) => (evs ++ tl, bufF)

/-- `inputEventsProducer` from the source, as a function of the initial
buffer contents and the chunks received from the reader: one decode attempt
before the loop, then the receive loop. -/
def inputEventsProducer (keys : List (List Nat)) (buf0 : List Nat)
    (chunks : List input_event) : List keyEvent × List Nat :=
  match producer_extract keys buf0 with
  | (evs0, buf1) =>
    match producer_loop keys buf1 chunks with
    | (evs, bufF) => (evs0 ++ evs, bufF)

/-- C2 counterexample: with table entries "\x1bOP"→F1 (key 0xFFFF) and
"\x1bOQ"→F2, the single data chunk 0x1B 'O' 'P' 'a' makes the producer emit
only F1; the byte 'a' stays in the buffer awaiting a further chunk, so the
claimed event sequence F1 then scalar 'a' is not produced. -/
theorem inputEventsProducer_single_decode_per_chunk :
    inputEventsProducer [[0x1B, 0x4F, 0x50], [0x1B, 0x4F, 0x51]] []
        [⟨[0x1B, 0x4F, 0x50, 0x61], none⟩] = ([⟨0xFFFF, 0, none⟩], [0x61]) ∧
      (inputEventsProducer [[0x1B, 0x4F, 0x50], [0x1B, 0x4F, 0x51]] []
        [⟨[0x1B, 0x4F, 0x50, 0x61], none⟩]).1 ≠
          [⟨0xFFFF, 0, none⟩, ⟨0, 0x61, none⟩] := by
  decide

theorem producer_loop_length_le (keys : List (List Nat)) (buf : List Nat)
    (chunks : List input_event) :
    (producer_loop keys buf chunks).1.length ≤ chunks.length := by
  induction chunks generalizing buf with
  | nil => simp [producer_loop]
  | cons c cs ih =>
    rw [producer_loop]
    match c.err with
    | some e => simp
    | none =>
      simp only
      rw [producer_extract]
      split_ifs
      · simpa using Nat.le_succ_of_le (ih (buf ++ c.data))
      · simpa using Nat.succ_le_succ (ih ((buf ++ c.data).drop
          (extract_event keys (buf ++ c.data)).1))

/-- C2 (amended): on each received data chunk the producer appends the bytes
to the accumulation buffer and invokes the decoder ONCE, emitting at most
one event per chunk (so at most one initial event plus one event per chunk
overall); with table entries "\x1bOP"→F1 and "\x1bOQ"→F2, the single chunk
0x1B 'O' 'P' 'a' yields only the event F1, and the byte 'a' remains buffered
until a later chunk arrives. -/
theorem inputEventsProducer_amended :
    (∀ (keys : List (List Nat)) (buf0 : List Nat) (chunks : List input_event),
      (inputEventsProducer keys buf0 chunks).1.length ≤ 1 + chunks.length) ∧
      inputEventsProducer [[0x1B, 0x4F, 0x50], [0x1B, 0x4F, 0x51]] []
        [⟨[0x1B, 0x4F, 0x50, 0x61], none⟩] = ([⟨0xFFFF, 0, none⟩], [0x61]) := by
  constructor
  · intro keys buf0 chunks
    rw [inputEventsProducer]
    rcases hpe : producer_extract keys buf0 with ⟨evs0, buf1⟩
    dsimp only
    rcases hpl : producer_loop keys buf1 chunks with ⟨evs, bufF⟩
    dsimp only
    rw [List.length_append]
    have h0 : evs0.length ≤ 1 := by
      rw [producer_extract] at hpe
      split_ifs at hpe <;> (injection hpe with hl hr; subst hl; simp)
    have h1 : evs.length ≤ chunks.length := by
      have hle := producer_loop_length_le keys buf1 chunks
      rw [hpl] at hle
      exact hle
    omega
  · decide

/-- Result of one `syscall.Read` in the reader's drain loop: bytes read,
would-block, or another error (error codes as `Nat`). -/
inductive ReadResult where
  | ok (data : List Nat)
  | wouldBlock
  | fail (e : Nat)
deriving DecidableEq

/-- Outcome of the select that delivers one chunk on `input_buf`: either the
send happens, or the quit case wins the race. -/
inductive SendOutcome where
  | delivered
  | quitWon
deriving DecidableEq

/-- Observable action of the Async Reader Task's drain loop. -/
inductive ReaderAct where
  | read (r : ReadResult)
  | send (c : input_event)
  | stop
deriving DecidableEq

/-- The drain loop of the reader goroutine in `initConsole`, as a trace over
a script of read results and delivery outcomes: a would-block read breaks
back to the outer select; any other read is followed by a delivery attempt
(`bytesRead = 0`, so empty data, when the read errored) that either succeeds
(`continue`: loop to the next read) or loses to quit (`return`: stop). -/
def drainTrace : List ReadResult → List SendOutcome → List ReaderAct
  | [], _ => []
  | r :: rs, outs =>
    match r with
    | .wouldBlock => [.read .wouldBlock]
    | .ok data =>
      match outs with
      | .delivered :: outs' => .read (.ok data) :: .send ⟨data, none⟩ :: drainTrace rs outs'
      | .quitWon :: _ => [.read (.ok data), .stop]
      | [] => [.read (.ok data)]
    | .fail e =>
      match outs with
      | .delivered :: outs' => .read (.fail e) :: .send ⟨[], some e⟩ :: drainTrace rs outs'
      | .quitWon :: _ => [.read (.fail e), .stop]
      | [] => [.read (.fail e)]

/-- C7 counterexample: after a read error (not would-block) whose error chunk
is delivered successfully, the reader performs ANOTHER read of the device
(the loop body ends in `continue`) and never transitions to Stopped in this
trace — contradicting the claim that it stops regardless of delivery
outcome. -/
theorem drainTrace_reads_after_error :
    drainTrace [.fail 5, .ok [0x61]] [.delivered, .delivered] =
        [.read (.fail 5), .send ⟨[], some 5⟩, .read (.ok [0x61]), .send ⟨[0x61], none⟩] ∧
      ReaderAct.read (.ok [0x61]) ∈
        drainTrace [.fail 5, .ok [0x61]] [.delivered, .delivered] ∧
      ReaderAct.stop ∉ drainTrace [.fail 5, .ok [0x61]] [.delivered, .delivered] := by
  decide

theorem drainTrace_stop_mem (rs : List ReadResult) (outs : List SendOutcome)
    (h : ReaderAct.stop ∈ drainTrace rs outs) : SendOutcome.quitWon ∈ outs := by
  induction rs generalizing outs with
  | nil => simp [drainTrace] at h
  | cons r rs ih =>
    match r with
    | .wouldBlock => simp [drainTrace] at h
    | .ok data =>
      match outs with
      | [] => simp [drainTrace] at h
      | .delivered :: outs' =>
        simp only [drainTrace, List.mem_cons] at h
        rcases h with h | h | h
        · exact absurd h (by simp)
        · exact absurd h (by simp)
        · exact List.mem_cons_of_mem _ (ih outs' h)
      | .quitWon :: _ => exact List.mem_cons_self _ _
    | .fail e =>
      match outs with
      | [] => simp [drainTrace] at h
      | .delivered :: outs' =>
        simp only [drainTrace, List.mem_cons] at h
        rcases h with h | h | h
        · exact absurd h (by simp)
        · exact absurd h (by simp)
        · exact List.mem_cons_of_mem _ (ih outs' h)
      | .quitWon :: _ => exact List.mem_cons_self _ _

/-- C7 (amended): after a read error other than would-block the reader
packages the error as a chunk with empty data and attempts to deliver it,
but it does NOT then transition to Stopped: when delivery succeeds it
continues the drain loop (performing further reads of the device); it
reaches Stopped only when the cancellation side of a delivery race wins. -/
theorem drainTrace_error_amended :
    (∀ (e : Nat) (rs : List ReadResult) (outs : List SendOutcome),
      drainTrace (.fail e :: rs) (.delivered :: outs) =
        .read (.fail e) :: .send ⟨[], some e⟩ :: drainTrace rs outs ∧
      drainTrace (.fail e :: rs) (.quitWon :: outs) = [.read (.fail e), .stop]) ∧
    (∀ (rs : List ReadResult) (outs : List SendOutcome),
      ReaderAct.stop ∈ drainTrace rs outs → SendOutcome.quitWon ∈ outs) :=
  ⟨fun _ _ _ => ⟨rfl, rfl⟩, drainTrace_stop_mem⟩

/-- C7 witness: the amended theorem at a concrete script — the delivered
error chunk is followed by the rest of the drain loop, and a stop in a trace
forces a quit-won delivery in the script. -/
theorem drainTrace_error_amended_witness :
    drainTrace [.fail 5] [.delivered] = [.read (.fail 5), .send ⟨[], some 5⟩] ∧
      SendOutcome.quitWon ∈ ([.quitWon] : List SendOutcome) := by
  constructor
  · have h := (drainTrace_error_amended.1 5 [] []).1
    simpa using h
  · exact drainTrace_error_amended.2 [.ok []] [.quitWon] (by decide)

/-- Script of outcomes for the sequential steps of `initConsole`: each step
either succeeds or yields an error code.  The two opens also carry the file
descriptor obtained on success; `goosIsDarwin` reflects the `runtime.GOOS`
check guarding the `F_SETOWN` error. -/
structure SetupScript where
  openOut : Except Nat Nat
  openIn : Except Nat Nat
  setupTermErr : Option Nat
  fcntlSetflErr : Option Nat
  fcntlSetownErr : Option Nat
  goosIsDarwin : Bool
  getattrErr : Option Nat
  setattrErr : Option Nat

/-- Outcome of `initConsole`: the error returned (if any), the descriptors
opened before returning, the descriptors closed before returning, and
whether the two goroutines were started. -/
structure SetupResult where
  errOut : Option Nat
  openedFds : List Nat
  closedFds : List Nat
  tasksStarted : Bool
deriving DecidableEq

/-- `initConsole` from the source, as a function of the outcome of each of
its steps: every failing step returns its error immediately, with no close
of previously opened descriptors on any path (the `setup_term` error is
returned wrapped by `fmt.Errorf`; modelled as the same code).  The
`F_SETOWN` error is ignored on darwin.  On full success the two goroutines
are started. -/
def initConsole (s : SetupScript) : SetupResult :=
  match s.openOut with
  | .error e => ⟨some e, [], [], false⟩
  | .ok fdOut =>
    match s.openIn with
    | .error e => ⟨some e, [fdOut], [], false⟩
    | .ok fdIn =>
      match s.setupTermErr with
      | some e => ⟨some e, [fdOut, fdIn], [], false⟩
      | none =>
        match s.fcntlSetflErr with
        | some e => ⟨some e, [fdOut, fdIn], [], false⟩
        | none =>
          match s.fcntlSetownErr with
          | some e =>
            if s.goosIsDarwin then
              match s.getattrErr with
              | some e' => ⟨some e', [fdOut, fdIn], [], false⟩
              | none =>
                match s.setattrErr with
                | some e' => ⟨some e', [fdOut, fdIn], [], false⟩
                | none => ⟨none, [fdOut, fdIn], [], true⟩
            else ⟨some e, [fdOut, fdIn], [], false⟩
          | none =>
            match s.getattrErr with
            | some e' => ⟨some e', [fdOut, fdIn], [], false⟩
            | none =>
              match s.setattrErr with
              | some e' => ⟨some e', [fdOut, fdIn], [], false⟩
              | none => ⟨none, [fdOut, fdIn], [], true⟩

/-- C8 counterexample: when opening the write descriptor succeeds (fd 3) and
opening the read descriptor fails, `initConsole` returns the error with fd 3
still open and nothing closed — partial state IS left behind, contrary to
the claim that every descriptor already opened is closed before returning. -/
theorem initConsole_leaves_fd_open :
    initConsole ⟨.ok 3, .error 9, none, none, none, false, none, none⟩ =
        ⟨some 9, [3], [], false⟩ ∧
      3 ∈ (initConsole ⟨.ok 3, .error 9, none, none, none, false, none, none⟩).openedFds ∧
      3 ∉ (initConsole ⟨.ok 3, .error 9, none, none, none, false, none, none⟩).closedFds := by
  decide

/-- C8 (amended): if a setup step of `initConsole` fails, the error is
returned synchronously and the goroutines are not started, but no cleanup is
performed: `initConsole` closes no descriptor on any path, so descriptors
opened before the failing step remain open. -/
theorem initConsole_amended (s : SetupScript) :
    (initConsole s).closedFds = [] ∧
      ((initConsole s).errOut ≠ none → (initConsole s).tasksStarted = false) := by
  rcases s with ⟨oOut, oIn, st, f1, f2, gd, ga, sa⟩
  rcases oOut with e | fdOut
  · exact ⟨rfl, fun _ => rfl⟩
  rcases oIn with e | fdIn
  · exact ⟨rfl, fun _ => rfl⟩
  rcases st with e | _
  all_goals rcases f1 with e1 | _
  all_goals rcases f2 with e2 | _
  all_goals rcases ga with e3 | _
  all_goals rcases sa with e4 | _
  all_goals rcases gd with _ | _
  all_goals simp [initConsole]

/-- C8 witness: the amended theorem at the concrete failing script. -/
theorem initConsole_amended_witness :
    (initConsole ⟨.ok 3, .error 9, none, none, none, false, none, none⟩).closedFds = [] ∧
      (initConsole ⟨.ok 3, .error 9, none, none, none, false, none, none⟩).tasksStarted
        = false :=
  ⟨(initConsole_amended ⟨.ok 3, .error 9, none, none, none, false, none, none⟩).1,
    (initConsole_amended ⟨.ok 3, .error 9, none, none, none, false, none, none⟩).2
      (by decide)⟩

/-- State of the teardown protocol: `pending` counts values sent on the
unbuffered `quit` channel and not yet received (`releaseConsole` performs
exactly one send `quit <- 1`); the flags record whether the reader and
producer goroutines have returned. -/
structure QuitState where
  pending : Nat
  readerStopped : Bool
  producerStopped : Bool
deriving DecidableEq

/-- Transitions available while both goroutines are blocked in their selects
with no input pending and no read error: the only way either goroutine
returns is by receiving from `quit`, and each receive consumes one sent
value (`quit` is an unbuffered channel carrying values, not a closed
channel, so a send is a rendezvous with exactly one receiver). -/
inductive QuitStep : QuitState → QuitState → Prop
  | reader (n : Nat) (p : Bool) : QuitStep ⟨n + 1, false, p⟩ ⟨n, true, p⟩
  | producer (n : Nat) (r : Bool) : QuitStep ⟨n + 1, r, false⟩ ⟨n, r, true⟩

theorem quitStep_invariant (s s' : QuitState) (h : QuitStep s s') :
    s'.pending + (if s'.readerStopped then 1 else 0) + (if s'.producerStopped then 1 else 0) =
      s.pending + (if s.readerStopped then 1 else 0) + (if s.producerStopped then 1 else 0) := by
  cases h with
  | reader n p => simp
  | producer n r => cases r <;> simp

/-- C3 (code bug): the single `quit <- 1` performed by `releaseConsole` is
NOT a broadcast — from the state in which one value has been sent on `quit`
and both goroutines are still running, no sequence of transitions reaches a
state in which both goroutines have stopped: each stop consumes a distinct
received value and only one was ever sent, so one task necessarily leaks. -/
theorem quit_single_send_not_broadcast (s : QuitState)
    (h : Relation.ReflTransGen QuitStep ⟨1, false, false⟩ s) :
    ¬(s.readerStopped = true ∧ s.producerStopped = true) := by
  have hinv : s.pending + (if s.readerStopped then 1 else 0) +
      (if s.producerStopped then 1 else 0) = 1 := by
    induction h with
    | refl => simp
    | tail _ hstep ih => rw [quitStep_invariant _ _ hstep]; exact ih
  rintro ⟨hr, hp⟩
  rw [hr, hp] at hinv
  simp at hinv

/-- C3 witness: the impossibility theorem applied to the reachable state in
which the reader has consumed the single quit value. -/
theorem quit_single_send_not_broadcast_witness :
    ¬((true : Bool) = true ∧ (false : Bool) = true) :=
  quit_single_send_not_broadcast ⟨0, true, false⟩
    (Relation.ReflTransGen.single (QuitStep.reader 0 false))
